import Mathlib

/-!
Verification of the Macro-Recorder application (src/app.py).

The Python source is shallowly embedded: timestamps and playback speeds
(Python floats holding seconds) are modelled as rationals, the recorded
event dictionaries as a tagged union, the in-memory buffers and the JSON
files on disk as ordinary Lean data.  Every definition below is a direct
translation of a function of `src/app.py` unless its doc comment says
otherwise (definitions written from the specification's words carry the
word `spec` in their doc comment).
-/

namespace MacroApp

/-- Payload of one recorded event: one constructor per value of the
`'type'` field written by `MacroRecorder` (src/app.py lines 81-144).
Coordinates and scroll deltas are kept as rationals because the pointer
capability may deliver non-integral positions. -/
inductive EventData where
  | mouseClick (x y : Rat) (button : String) (pressed : Bool)
  | mouseMove (x y : Rat)
  | mouseScroll (x y : Rat) (dx dy : Rat)
  | keyPress (key : String)
  | keyRelease (key : String)
  deriving DecidableEq, Repr

/-- A recorded event: the `'timestamp'` field (seconds since recording
start) together with the kind-specific payload. -/
structure Event where
  timestamp : Rat
  data : EventData
  deriving DecidableEq, Repr

/-- `event['type'] == 'mouse_move'` (the comparison used by the move
throttle in `MacroRecorder._on_mouse_move`). -/
def isMouseMove : EventData → Bool
  | .mouseMove _ _ => true
  | _ => false

/-- State of the `MacroRecorder` singleton: the event buffer (`self.events`,
appended at the right end) and the `self.recording` flag.  The
`self.start_time` wall clock is abstracted away: callbacks receive the
already-computed relative offset `t = time.time() - start_time`. -/
structure RecorderState where
  events : List Event
  recording : Bool
  deriving DecidableEq, Repr

/-- The throttle condition of `MacroRecorder._on_mouse_move`
(src/app.py lines 97-98):
`not self.events or self.events[-1]['type'] != 'mouse_move' or
 self._get_timestamp() - self.events[-1]['timestamp'] > 0.1`. -/
def shouldRecordMove (buf : List Event) (t : Rat) : Bool :=
  match buf.getLast? with
  | none => true
  | some e => !(isMouseMove e.data) || decide ((1 : Rat)/10 < t - e.timestamp)

/-- `MacroRecorder._on_mouse_move` (src/app.py lines 93-104); `t` is the
relative timestamp at which the notification arrives. -/
def onMouseMove (s : RecorderState) (t : Rat) (x y : Rat) : RecorderState :=
  if s.recording then
    if shouldRecordMove s.events t then
      { s with events := s.events ++ [⟨t, .mouseMove x y⟩] }
    else s
  else s

/-- `MacroRecorder._on_mouse_click` (src/app.py lines 81-91). -/
def onMouseClick (s : RecorderState) (t : Rat) (x y : Rat) (button : String)
    (pressed : Bool) : RecorderState :=
  if s.recording then
    { s with events := s.events ++ [⟨t, .mouseClick x y button pressed⟩] }
  else s

/-- `MacroRecorder._on_mouse_scroll` (src/app.py lines 106-116). -/
def onMouseScroll (s : RecorderState) (t : Rat) (x y dx dy : Rat) : RecorderState :=
  if s.recording then
    { s with events := s.events ++ [⟨t, .mouseScroll x y dx dy⟩] }
  else s

/-- Abstract key delivered by the OS input layer.  Modelled from the spec
(section 6): the input capability is out of scope and delivers either a
character key (whose `key.char` attribute is that single character) or a
named key (a `Key`-enum member, which has no `char` attribute and whose
`str()` is `"Key." ++ name`). -/
inductive PyKey where
  | keyCode (c : Char)
  | named (n : String)
  deriving DecidableEq, Repr

/-- The string stored for a key event by `MacroRecorder._on_key_press` /
`_on_key_release` (src/app.py lines 118-144): `key.char` when the key has
one, otherwise `str(key)`. -/
def keyCharOf : PyKey → String
  | .keyCode c => ⟨[c]⟩
  | .named n => "Key." ++ n

/-- `MacroRecorder._on_key_press` (src/app.py lines 118-130). -/
def onKeyPress (s : RecorderState) (t : Rat) (k : PyKey) : RecorderState :=
  if s.recording then
    { s with events := s.events ++ [⟨t, .keyPress (keyCharOf k)⟩] }
  else s

/-- `MacroRecorder._on_key_release` (src/app.py lines 132-144). -/
def onKeyRelease (s : RecorderState) (t : Rat) (k : PyKey) : RecorderState :=
  if s.recording then
    { s with events := s.events ++ [⟨t, .keyRelease (keyCharOf k)⟩] }
  else s

/-- A device notification together with the relative timestamp at which
it is delivered to the recorder. -/
inductive Notification where
  | click (t : Rat) (x y : Rat) (button : String) (pressed : Bool)
  | move (t : Rat) (x y : Rat)
  | scroll (t : Rat) (x y dx dy : Rat)
  | keyDown (t : Rat) (k : PyKey)
  | keyUp (t : Rat) (k : PyKey)
  deriving DecidableEq, Repr

/-- Dispatch of one device notification to the matching recorder callback. -/
def handleNotification (s : RecorderState) : Notification → RecorderState
  | .click t x y b p => onMouseClick s t x y b p
  | .move t x y => onMouseMove s t x y
  | .scroll t x y dx dy => onMouseScroll s t x y dx dy
  | .keyDown t k => onKeyPress s t k
  | .keyUp t k => onKeyRelease s t k

/-- The recorder state right after `MacroRecorder.start_recording`
(src/app.py lines 30-56): cleared buffer, recording flag set. -/
def startState : RecorderState := ⟨[], true⟩

/-- A whole capture session: fold the callbacks over the stream of
device notifications, starting from a fresh recording. -/
def recordRun (inputs : List Notification) : RecorderState :=
  inputs.foldl handleNotification startState

/-- `MacroRecorder.stop_recording` (src/app.py lines 58-71): returns
`false` when no session is active, otherwise clears the flag; the buffer
is retained either way. -/
def stopRecording (s : RecorderState) : Bool × RecorderState :=
  if !s.recording then (false, s)
  else (true, { s with recording := false })

/-- The move-throttle condition as the claim words it (spec section 4.1),
with the elapsed-time disjunct read as "at least 0.1 seconds", i.e. `≥`. -/
def claimMoveCondGeq (buf : List Event) (t : Rat) : Bool :=
  match buf.getLast? with
  | none => true
  | some e => !(isMouseMove e.data) || decide ((1 : Rat)/10 ≤ t - e.timestamp)

/-- The move-throttle condition with the elapsed-time disjunct made
strict (`>`), which is what the source implements. -/
def claimMoveCondStrict (buf : List Event) (t : Rat) : Bool :=
  match buf.getLast? with
  | none => true
  | some e => !(isMouseMove e.data) || decide ((1 : Rat)/10 < t - e.timestamp)

/-- Relation between adjacent buffer entries maintained by the throttle:
whenever two adjacent stored events are both moves, their offsets are
more than 0.1 s apart. -/
def movePair (a b : Event) : Prop :=
  isMouseMove a.data = true → isMouseMove b.data = true →
    a.timestamp + 1/10 < b.timestamp

/-- Any two stored moves separated only by stored moves are at least
0.1 s apart (the "pairwise, except across an intervening non-move event"
consequence of the throttle). -/
def movesSpaced (buf : List Event) : Prop :=
  ∀ l1 a mid b l2, buf = l1 ++ a :: mid ++ b :: l2 →
    isMouseMove a.data = true → isMouseMove b.data = true →
    (∀ e ∈ mid, isMouseMove e.data = true) →
    a.timestamp + 1/10 ≤ b.timestamp

/-! ## Replay engine (`MacroPlayer`) -/

/-- One observable action of a replay worker: a timed sleep
(`time.sleep(wait_time)`) or the dispatch of one event
(`self._execute_event(event)`). -/
inductive Action where
  | sleep (t : Rat)
  | dispatch (e : Event)
  deriving DecidableEq, Repr

/-- The events dispatched along a worker trace. -/
def dispatches (acts : List Action) : List Event :=
  acts.filterMap fun a => match a with
    | .dispatch e => some e
    | .sleep _ => none

/-- Value read from `self.playing` at the n-th cancellation check of a
worker run.  The external cancellation signal is monotone: `none` means
the flag is never cleared; `some k` means every check from the k-th on
reads `False`. -/
def isPlaying (c : Option Nat) (n : Nat) : Bool :=
  match c with
  | none => true
  | some k => decide (n < k)

/-- Result of the inner per-event loop of a worker: the emitted actions,
the cancellation-check counter after the loop, and whether a
`ZeroDivisionError` escaped the loop (Python raises it when computing
`wait_time` with `speed == 0`). -/
structure InnerRes where
  acts : List Action
  counter : Nat
  errored : Bool
  deriving DecidableEq, Repr

/-- The inner `for event in events:` loop shared by
`MacroPlayer._play_events` (src/app.py lines 280-290) and
`MacroPlayer._play_events_loop` (lines 237-247): check the flag, compute
`wait_time = (event['timestamp'] - last_timestamp) / speed`, sleep when
positive, dispatch, advance `last_timestamp`. -/
def playInner (speed : Rat) (c : Option Nat) :
    List Event → Rat → Nat → InnerRes
  | [], _, n => ⟨[], n, false⟩
  | e :: rest, last, n =>
    if isPlaying c n then
      if speed = 0 then ⟨[], n + 1, true⟩
      else
        let wait := (e.timestamp - last) / speed
        let r := playInner speed c rest e.timestamp (n + 1)
        ⟨(if 0 < wait then [Action.sleep wait] else []) ++
          Action.dispatch e :: r.acts, r.counter, r.errored⟩
    else ⟨[], n + 1, false⟩

/-- Result of the outer repeat loop: emitted actions and whether the
run ended in the `except` clause. -/
structure OuterRes where
  acts : List Action
  errored : Bool
  deriving DecidableEq, Repr

/-- The outer `for _ in range(repeat):` loop of
`MacroPlayer._play_events` (src/app.py lines 274-290): check the flag,
reset `last_timestamp = 0`, run the inner loop; an escaping exception
aborts the remaining passes (it is caught by the `except` clause at line
292). -/
def playOuter (speed : Rat) (c : Option Nat) (events : List Event) :
    Nat → Nat → OuterRes
  | 0, _ => ⟨[], false⟩
  | r + 1, n =>
    if isPlaying c n then
      let ir := playInner speed c events 0 (n + 1)
      if ir.errored then ⟨ir.acts, true⟩
      else
        let rest := playOuter speed c events r ir.counter
        ⟨ir.acts ++ rest.acts, rest.errored⟩
    else ⟨[], false⟩

/-- Full outcome of the finite-repeat worker: its action trace, whether
it errored, and the value of `self.playing` after its `finally` clause. -/
structure PlayResult where
  acts : List Action
  errored : Bool
  finalPlaying : Bool
  deriving DecidableEq, Repr

/-- `MacroPlayer._play_events` (src/app.py lines 271-295) under the
cancellation signal `c`: the outer loop followed by the `finally`
clause `self.playing = False`. -/
def playEventsRun (events : List Event) (speed : Rat) (rep : Nat)
    (c : Option Nat) : PlayResult :=
  let o := playOuter speed c events rep 0
  ⟨o.acts, o.errored, false⟩

/-- One finite-repeat pass exactly as the spec words it (section 4.3):
sleep `(event.offset - previous_event.offset) / speed` seconds, skipping
the sleep when that quantity is not positive, with
`previous_event.offset = 0` before the first event, then dispatch. -/
def specPassGo (speed : Rat) : Rat → List Event → List Action
  | _, [] => []
  | prev, e :: rest =>
    (if 0 < (e.timestamp - prev) / speed then
      [Action.sleep ((e.timestamp - prev) / speed)] else []) ++
      Action.dispatch e :: specPassGo speed e.timestamp rest

/-- One full pass over the events, previous offset starting at 0. -/
def specPass (speed : Rat) (events : List Event) : List Action :=
  specPassGo speed 0 events

/-- The spec's finite-repeat algorithm: `rep` identical passes. -/
def specFiniteReplay (speed : Rat) (events : List Event) (rep : Nat) :
    List Action :=
  (List.replicate rep (specPass speed events)).flatten

/-- Timestamps are non-decreasing starting from `last` (the implicit
capture invariant of spec section 3). -/
def nondecFrom (last : Rat) : List Event → Bool
  | [] => true
  | e :: rest => decide (last ≤ e.timestamp) && nondecFrom e.timestamp rest

/-! ## `MacroPlayer` session flags and start calls -/

/-- The replay-session flags of `MacroPlayer`: `self.playing`,
`self.loop_playing`, and whether the Ctrl+S/ESC stop listener is
running. -/
structure PlayerState where
  playing : Bool
  loopPlaying : Bool
  listenerActive : Bool
  deriving DecidableEq, Repr

/-- A background worker spawned (but not yet run) by a start call. -/
inductive Spawn where
  | finiteRun (events : List Event) (speed : Rat) (rep : Nat)
  | loopRun (events : List Event) (speed : Rat) (delay : Rat)
  deriving DecidableEq, Repr

/-- `MacroPlayer.play_macro` (src/app.py lines 157-168): reject when
`self.playing`, otherwise set the flag and start the background thread.
The returned `Option Spawn` is the thread started by the call; the call
itself performs no dispatch and does not wait for the worker. -/
def playMacroReq (s : PlayerState) (events : List Event) (speed : Rat)
    (rep : Nat) : Bool × PlayerState × Option Spawn :=
  if s.playing then (false, s, none)
  else (true, { s with playing := true }, some (.finiteRun events speed rep))

/-- `MacroPlayer.play_macro_loop` (src/app.py lines 170-186): reject when
`self.playing or self.loop_playing`, otherwise set both flags, start the
stop-hotkey listener and spawn the loop worker. -/
def playMacroLoopReq (s : PlayerState) (events : List Event) (speed : Rat)
    (delay : Rat) : Bool × PlayerState × Option Spawn :=
  if s.playing || s.loopPlaying then (false, s, none)
  else (true,
    { s with playing := true, loopPlaying := true, listenerActive := true },
    some (.loopRun events speed delay))

/-! ## Key parsing during replay (`MacroPlayer._parse_key`) -/

/-- Does `s` begin with the characters `pre` (Python `str.startswith`)? -/
def beginsWith : List Char → List Char → Bool
  | [], _ => true
  | _ :: _, [] => false
  | p :: ps, c :: cs => p == c && beginsWith ps cs

/-- Python `str.split('.')`: split the character list at every `'.'`,
keeping empty groups. -/
def splitDot : List Char → List (List Char)
  | [] => [[]]
  | c :: rest =>
    if c = '.' then [] :: splitDot rest
    else
      match splitDot rest with
      | [] => [[c]]
      | g :: gs => (c :: g) :: gs

/-- The named-key identifiers of the abstract input layer.  Modelled from
the spec (sections 4.1 and 6): the OS capability's `Key` enum of
non-character keys, looked up by `getattr(keyboard.Key, name)`. -/
def pynputKeyNames : List String :=
  ["alt", "alt_gr", "alt_l", "alt_r", "backspace", "caps_lock",
   "cmd", "cmd_l", "cmd_r", "ctrl", "ctrl_l", "ctrl_r", "delete",
   "down", "end", "enter", "esc", "f1", "f2", "f3", "f4", "f5", "f6",
   "f7", "f8", "f9", "f10", "f11", "f12", "home", "insert", "left",
   "menu", "num_lock", "page_down", "page_up", "pause", "print_screen",
   "right", "scroll_lock", "shift", "shift_l", "shift_r", "space",
   "tab", "up"]

/-- Result of `MacroPlayer._parse_key`: either the original string itself
(pressed as a literal character sequence) or a resolved `Key`-enum
member. -/
inductive ParsedKey where
  | literal (s : String)
  | keyMember (n : String)
  deriving DecidableEq, Repr

/-- `MacroPlayer._parse_key` (src/app.py lines 326-336): a length-1
string is returned as-is; a string starting with `"Key."` is resolved
through `getattr(keyboard.Key, key_str.split('.')[-1], key_str)`;
anything else is returned as-is. -/
def parseKey (s : String) : ParsedKey :=
  if s.length = 1 then .literal s
  else if beginsWith "Key.".data s.data then
    let keyName : String := ⟨(splitDot s.data).getLastD []⟩
    if keyName ∈ pynputKeyNames then .keyMember keyName
    else .literal s
  else .literal s

/-! ## Sequence store (`MacroManager`) and its JSON files -/

/-- JSON values, the persisted representation (`json.dump`/`json.load`
with cosmetic indentation). -/
inductive Json where
  | null
  | bool (b : Bool)
  | num (q : Rat)
  | str (s : String)
  | arr (xs : List Json)
  | obj (fields : List (String × Json))

/-- First-match lookup in a JSON object's field list (Python dict
access). -/
def jget (fs : List (String × Json)) (k : String) : Option Json :=
  match fs with
  | [] => none
  | (k', v) :: rest => if k' = k then some v else jget rest k

/-- The JSON object written for one recorded event: exactly the
dictionaries built by `MacroRecorder` (src/app.py lines 81-144). -/
def eventToJson : Event → Json
  | ⟨t, .mouseClick x y b p⟩ =>
    .obj [("type", .str "mouse_click"), ("timestamp", .num t),
          ("x", .num x), ("y", .num y), ("button", .str b),
          ("pressed", .bool p)]
  | ⟨t, .mouseMove x y⟩ =>
    .obj [("type", .str "mouse_move"), ("timestamp", .num t),
          ("x", .num x), ("y", .num y)]
  | ⟨t, .mouseScroll x y dx dy⟩ =>
    .obj [("type", .str "mouse_scroll"), ("timestamp", .num t),
          ("x", .num x), ("y", .num y), ("dx", .num dx), ("dy", .num dy)]
  | ⟨t, .keyPress k⟩ =>
    .obj [("type", .str "key_press"), ("timestamp", .num t),
          ("key", .str k)]
  | ⟨t, .keyRelease k⟩ =>
    .obj [("type", .str "key_release"), ("timestamp", .num t),
          ("key", .str k)]

/-- Read one persisted event dictionary back into the typed event model,
field for field (the fields `MacroPlayer._execute_event` reads at
src/app.py lines 297-324). -/
def eventFromJson (j : Json) : Option Event :=
  match j with
  | .obj fs =>
    match jget fs "type" with
    | some (.str "mouse_click") =>
      match jget fs "timestamp", jget fs "x", jget fs "y",
            jget fs "button", jget fs "pressed" with
      | some (.num t), some (.num x), some (.num y),
        some (.str b), some (.bool p) => some ⟨t, .mouseClick x y b p⟩
      | _, _, _, _, _ => none
    | some (.str "mouse_move") =>
      match jget fs "timestamp", jget fs "x", jget fs "y" with
      | some (.num t), some (.num x), some (.num y) =>
        some ⟨t, .mouseMove x y⟩
      | _, _, _ => none
    | some (.str "mouse_scroll") =>
      match jget fs "timestamp", jget fs "x", jget fs "y",
            jget fs "dx", jget fs "dy" with
      | some (.num t), some (.num x), some (.num y),
        some (.num dx), some (.num dy) => some ⟨t, .mouseScroll x y dx dy⟩
      | _, _, _, _, _ => none
    | some (.str "key_press") =>
      match jget fs "timestamp", jget fs "key" with
      | some (.num t), some (.str k) => some ⟨t, .keyPress k⟩
      | _, _ => none
    | some (.str "key_release") =>
      match jget fs "timestamp", jget fs "key" with
      | some (.num t), some (.str k) => some ⟨t, .keyRelease k⟩
      | _, _ => none
    | _ => none
  | _ => none

/-- Decode a persisted event list element-wise. -/
def decodeEvents : List Json → Option (List Event)
  | [] => some []
  | j :: rest =>
    match eventFromJson j, decodeEvents rest with
    | some e, some es => some (e :: es)
    | _, _ => none

/-- The `macros/` directory: one JSON file per file name, newest write
first (a later write to the same file name shadows the older content,
which models wholesale overwriting). -/
def Store := List (String × Json)

/-- Content of the file named `k`, if present. -/
def storeGet (st : Store) (k : String) : Option Json := jget st k

/-- Write (or overwrite) the file named `k`. -/
def storePut (st : Store) (k : String) (v : Json) : Store := (k, v) :: st

/-- The JSON object `macro_data` written by `MacroManager.save_macro`
(src/app.py lines 347-352). -/
def macroFileJson (name description created : String)
    (events : List Event) : Json :=
  .obj [("name", .str name), ("description", .str description),
        ("created", .str created),
        ("events", .arr (events.map eventToJson))]

/-- `MacroManager.save_macro` (src/app.py lines 345-360): write the file
`<name>.json` and return the path.  `created` is the
`datetime.now().isoformat()` string, passed in as a parameter. -/
def saveMacroToStore (st : Store) (name : String) (events : List Event)
    (description created : String) : Store × String :=
  (storePut st (name ++ ".json") (macroFileJson name description created events),
   "macros/" ++ name ++ ".json")

/-- `MacroManager.load_macro` (src/app.py lines 380-389): return the
parsed content of `<name>.json`, or `none` when the file is absent. -/
def loadMacroFromStore (st : Store) (name : String) : Option Json :=
  storeGet st (name ++ ".json")

/-- The `events` field of a loaded macro file. -/
def eventsField (j : Json) : Option (List Json) :=
  match j with
  | .obj fs =>
    match jget fs "events" with
    | some (.arr xs) => some xs
    | _ => none
  | _ => none

/-! ## Auto-save (`MacroManager.auto_save_macro`) -/

/-- A wall-clock instant as `datetime.now()` exposes it. -/
structure PyDateTime where
  year : Nat
  month : Nat
  day : Nat
  hour : Nat
  minute : Nat
  second : Nat
  deriving DecidableEq, Repr

/-- Zero-padded two-digit field (strftime `%m`, `%d`, `%H`, `%M`, `%S`). -/
def pad2 (n : Nat) : String :=
  if n < 10 then "0" ++ toString n else toString n

/-- Zero-padded four-digit year (strftime `%Y`). -/
def pad4 (n : Nat) : String :=
  if n < 10 then "000" ++ toString n
  else if n < 100 then "00" ++ toString n
  else if n < 1000 then "0" ++ toString n
  else toString n

/-- `datetime.now().strftime("%Y%m%d_%H%M%S")` (src/app.py line 368). -/
def strftimeCompact (t : PyDateTime) : String :=
  pad4 t.year ++ pad2 t.month ++ pad2 t.day ++ "_" ++
    pad2 t.hour ++ pad2 t.minute ++ pad2 t.second

/-- Round to the nearest integer, ties to even (the rounding Python's
`format(x, '.1f')` applies to the scaled value). -/
def roundHalfEven (q : Rat) : Int :=
  let f := ⌊q⌋
  let r := q - f
  if r < 1/2 then f
  else if 1/2 < r then f + 1
  else if f % 2 = 0 then f else f + 1

/-- Python `f"{q:.1f}"`: the value rounded to one decimal place. -/
def fmt1 (q : Rat) : String :=
  let n := roundHalfEven (q * 10)
  let m := n.natAbs
  let core := toString (m / 10) ++ "." ++ toString (m % 10)
  if n < 0 then "-" ++ core else core

/-- `e['type'] == 'mouse_click' and e['pressed']` (src/app.py line 372). -/
def isPressClick (e : Event) : Bool :=
  match e.data with
  | .mouseClick _ _ _ p => p
  | _ => false

/-- `e['type'] == 'key_press'` (src/app.py line 373). -/
def isKeyPressEv (e : Event) : Bool :=
  match e.data with
  | .keyPress _ => true
  | _ => false

/-- `MacroManager.auto_save_macro` (src/app.py lines 362-378): empty
event list is a no-op returning `""`; otherwise build the timestamped
name and summary description and delegate to `save_macro`. -/
def autoSaveMacroToStore (st : Store) (now : PyDateTime) (created : String)
    (events : List Event) : Store × String :=
  match events with
  | [] => (st, "")
  | e0 :: rest =>
    let name := "macro_" ++ strftimeCompact now
    let clicks := (e0 :: rest).countP fun e => isPressClick e
    let keyPresses := (e0 :: rest).countP fun e => isKeyPressEv e
    let duration :=
      if 1 < (e0 :: rest).length then
        ((e0 :: rest).getLast (List.cons_ne_nil e0 rest)).timestamp -
          e0.timestamp
      else 0
    let description := "Auto-saved macro: " ++ toString clicks ++
      " clicks, " ++ toString keyPresses ++ " key presses, " ++
      fmt1 duration ++ "s duration"
    saveMacroToStore st name (e0 :: rest) description created

/-! ## HTTP façade routes -/

/-- Characters removed by Python `str.strip()` with no argument. -/
def isPySpace (c : Char) : Bool :=
  c == ' ' || c == '\t' || c == '\n' || c == '\r' ||
    c == '\x0b' || c == '\x0c'

/-- Python `str.strip()`: drop leading and trailing whitespace. -/
def pyStrip (s : String) : String :=
  ⟨((s.data.dropWhile isPySpace).reverse.dropWhile isPySpace).reverse⟩

/-- JSON body returned by the `/save_macro` route. -/
structure SaveResp where
  success : Bool
  error : Option String
  filepath : Option String
  deriving DecidableEq, Repr

/-- The `/save_macro` route handler (src/app.py lines 956-971): strip the
name and description, reject a blank name, otherwise call
`MacroManager.save_macro` and report the path. -/
def saveMacroRoute (st : Store) (created : String) (name description : String)
    (events : List Event) : Store × SaveResp :=
  let name' := pyStrip name
  let description' := pyStrip description
  if name' = "" then (st, ⟨false, some "Name is required", none⟩)
  else
    let (st', fp) := saveMacroToStore st name' events description' created
    (st', ⟨true, none, some fp⟩)

/-- JSON body returned by the `/stop_recording` route. -/
structure StopResp where
  success : Bool
  events : List Event
  autoSaved : Bool
  deriving DecidableEq, Repr

/-- The `/stop_recording` route handler (src/app.py lines 934-950):
stop the recorder; when that succeeded and the buffer is non-empty,
attempt the auto-save inside `try/except` (`storageFails = true` models
the write raising, in which case the store is left unchanged and the
exception is swallowed); the response reports
`auto_saved = success and len(recorder.events) > 0` regardless. -/
def stopRecordingRoute (rec : RecorderState) (st : Store) (now : PyDateTime)
    (created : String) (storageFails : Bool) :
    RecorderState × Store × StopResp :=
  let (ok, rec') := stopRecording rec
  let st' :=
    if ok && !rec'.events.isEmpty then
      if storageFails then st
      else (autoSaveMacroToStore st now created rec'.events).1
    else st
  (rec', st',
   ⟨ok, if ok then rec'.events else [], ok && !rec'.events.isEmpty⟩)

/-! ## Stop / join interleaving (`MacroPlayer.stop_playback`)

`stop_playback` (src/app.py lines 262-269) runs on the control thread
while a worker thread (`_play_events` or `_play_events_loop`) may still
be running.  The model below is the happens-before skeleton of that
code: the worker may dispatch events until its `finally` clause runs and
the thread terminates; `stop_playback` clears both flags, stops the
hotkey listener, and calls `self.play_thread.join()`, which can only
return once the worker thread has terminated. -/

/-- One atomic step of the two-thread system. -/
inductive SysLabel where
  | workerDispatch
  | workerExit
  | stopSetFlags
  | stopHaltListener
  | stopJoin
  deriving DecidableEq, Repr

/-- Shared state of the worker thread and `stop_playback`.  `stopPC`
is the program counter of `stop_playback`: 0 before `self.playing =
False`, 1 after the flags are cleared, 2 after the listener is stopped,
3 once `join()` has returned (i.e. once `stop_playback` returns). -/
structure SysState where
  playing : Bool
  loopPlaying : Bool
  listenerActive : Bool
  workerDone : Bool
  stopPC : Nat
  deriving DecidableEq, Repr

/-- Transition relation: `none` when the step is not enabled.  The
worker can dispatch only while its thread is alive; `workerExit` is its
`finally` clause plus thread termination; the three stop steps follow
the statement order of `stop_playback`, and `stopJoin` (the return of
`self.play_thread.join()`) is enabled only once the worker thread has
terminated. -/
def sysStep (s : SysState) : SysLabel → Option SysState
  | .workerDispatch => if s.workerDone then none else some s
  | .workerExit =>
    if s.workerDone then none
    else some { s with workerDone := true, playing := false,
                       loopPlaying := false, listenerActive := false }
  | .stopSetFlags =>
    if s.stopPC = 0 then
      some { s with playing := false, loopPlaying := false, stopPC := 1 }
    else none
  | .stopHaltListener =>
    if s.stopPC = 1 then some { s with listenerActive := false, stopPC := 2 }
    else none
  | .stopJoin =>
    if s.stopPC = 2 && s.workerDone then some { s with stopPC := 3 }
    else none

/-- Run a whole interleaving; `none` when some step was not enabled. -/
def sysRun (s : SysState) : List SysLabel → Option SysState
  | [] => some s
  | l :: ls => (sysStep s l).bind fun s' => sysRun s' ls

/-! ## Theorems -/

lemma sysRun_append (l1 l2 : List SysLabel) (s : SysState) :
    sysRun s (l1 ++ l2) = (sysRun s l1).bind fun s' => sysRun s' l2 := by
  induction l1 generalizing s with
  | nil => simp [sysRun]
  | cons l ls ih =>
    simp only [List.cons_append, sysRun]
    cases sysStep s l with
    | none => simp
    | some s' => simp [ih]

lemma sysStep_preserves_done {s s' : SysState} {l : SysLabel}
    (h : sysStep s l = some s') (hd : s.workerDone = true) :
    s'.workerDone = true := by
  cases l with
  | workerDispatch =>
    simp only [sysStep, hd, if_true] at h
    exact absurd h (by simp)
  | workerExit =>
    simp only [sysStep, hd, if_true] at h
    exact absurd h (by simp)
  | stopSetFlags =>
    simp only [sysStep] at h
    rcases Option.ite_none_right_eq_some.mp h with ⟨-, h⟩
    injection h with h
    rw [← h]
    exact hd
  | stopHaltListener =>
    simp only [sysStep] at h
    rcases Option.ite_none_right_eq_some.mp h with ⟨-, h⟩
    injection h with h
    rw [← h]
    exact hd
  | stopJoin =>
    simp only [sysStep] at h
    rcases Option.ite_none_right_eq_some.mp h with ⟨-, h⟩
    injection h with h
    rw [← h]
    exact hd

lemma sysRun_no_dispatch {s : SysState} {ls : List SysLabel} {s' : SysState}
    (hd : s.workerDone = true) (h : sysRun s ls = some s') :
    SysLabel.workerDispatch ∉ ls := by
  induction ls generalizing s with
  | nil => simp
  | cons l rest ih =>
    simp only [sysRun] at h
    cases hstep : sysStep s l with
    | none => simp [hstep] at h
    | some s1 =>
      simp only [hstep, Option.some_bind] at h
      have hd1 := sysStep_preserves_done hstep hd
      have hrest := ih hd1 h
      intro hin
      rcases List.mem_cons.mp hin with heq | hin'
      · subst heq
        simp [sysStep, hd] at hstep
      · exact hrest hin'

/-- C2: after `stop_playback` returns, no replay worker dispatches any
further event.  In any valid interleaving, every `workerDispatch` step
precedes the return of `join()` (`stopJoin`); moreover `stop_playback`
first clears both session flags, then stops the hotkey listener, and
`join()` can only return once the worker thread has terminated. -/
theorem stop_playback_no_dispatch_after_return :
    (∀ (s0 : SysState) (l1 l2 : List SysLabel) (sf : SysState),
        sysRun s0 (l1 ++ SysLabel.stopJoin :: l2) = some sf →
        SysLabel.workerDispatch ∉ l2)
    ∧ (∀ s s' : SysState, sysStep s SysLabel.stopSetFlags = some s' →
        s'.playing = false ∧ s'.loopPlaying = false)
    ∧ (∀ s s' : SysState, sysStep s SysLabel.stopHaltListener = some s' →
        s'.listenerActive = false)
    ∧ (∀ s s' : SysState, sysStep s SysLabel.stopJoin = some s' →
        s.workerDone = true) := by
  refine ⟨?_, ?_, ?_, ?_⟩
  · intro s0 l1 l2 sf h
    rw [sysRun_append] at h
    cases h1 : sysRun s0 l1 with
    | none => simp [h1] at h
    | some s1 =>
      simp only [h1, Option.some_bind, sysRun] at h
      cases hstep : sysStep s1 SysLabel.stopJoin with
      | none => simp [hstep] at h
      | some s2 =>
        rw [hstep] at h
        simp only [Option.some_bind] at h
        have hd : s2.workerDone = true := by
          simp only [sysStep] at hstep
          rcases Option.ite_none_right_eq_some.mp hstep with ⟨hc, hs2⟩
          injection hs2 with hs2
          rw [← hs2]
          simp only [Bool.and_eq_true, decide_eq_true_eq] at hc
          exact hc.2
        exact sysRun_no_dispatch hd h
  · intro s s' h
    simp [sysStep] at h
    rcases h with ⟨-, h⟩
    simp [← h]
  · intro s s' h
    simp [sysStep] at h
    rcases h with ⟨-, h⟩
    simp [← h]
  · intro s s' h
    simp [sysStep] at h
    exact h.1.2

/-- C2 witness: a concrete interleaving in which the worker dispatches,
the stopper runs start to finish, and the trace after `stopJoin` is
dispatch-free. -/
theorem stop_playback_no_dispatch_after_return_witness :
    SysLabel.workerDispatch ∉ ([] : List SysLabel) :=
  stop_playback_no_dispatch_after_return.1
    ⟨true, true, true, false, 0⟩
    [SysLabel.workerDispatch, SysLabel.stopSetFlags,
     SysLabel.stopHaltListener, SysLabel.workerExit]
    [] ⟨false, false, false, true, 3⟩ (by decide)

/-- C5: at most one replay session at a time.  `play_macro` rejects
whenever `self.playing` is set; `play_macro_loop` rejects whenever
either flag is set; from an idle state each sets its flags, spawns the
corresponding worker without dispatching anything itself, and returns
`true`. -/
theorem play_start_exclusive (s : PlayerState) (events : List Event)
    (speed : Rat) (rep : Nat) (delay : Rat) :
    (s.playing = true → playMacroReq s events speed rep = (false, s, none))
    ∧ (s.playing = false →
        playMacroReq s events speed rep =
          (true, { s with playing := true },
           some (.finiteRun events speed rep)))
    ∧ (s.playing = true ∨ s.loopPlaying = true →
        playMacroLoopReq s events speed delay = (false, s, none))
    ∧ (s.playing = false → s.loopPlaying = false →
        playMacroLoopReq s events speed delay =
          (true, { s with playing := true, loopPlaying := true,
                          listenerActive := true },
           some (.loopRun events speed delay))) := by
  refine ⟨?_, ?_, ?_, ?_⟩
  · intro h; simp [playMacroReq, h]
  · intro h; simp [playMacroReq, h]
  · rintro (h | h) <;> simp [playMacroLoopReq, h]
  · intro h1 h2; simp [playMacroLoopReq, h1, h2]

/-- C5 witness: concrete idle and busy player states. -/
theorem play_start_exclusive_witness :
    playMacroReq ⟨false, false, false⟩ [] 1 1 =
      (true, ⟨true, false, false⟩, some (.finiteRun [] 1 1))
    ∧ playMacroLoopReq ⟨true, false, false⟩ [] 1 1 =
      (false, ⟨true, false, false⟩, none) :=
  ⟨(play_start_exclusive ⟨false, false, false⟩ [] 1 1 1).2.1 rfl,
   (play_start_exclusive ⟨true, false, false⟩ [] 1 1 1).2.2.1 (Or.inl rfl)⟩

/-- C10: the `/stop_recording` route reports `auto_saved` exactly when
stopping succeeded and the buffer is non-empty; the response (success
flag, events, `auto_saved`) is identical whether or not the autosave
write to storage raised, and a successful stop returns the captured
buffer. -/
theorem stop_recording_route_auto_saved (rec : RecorderState) (st : Store)
    (now : PyDateTime) (created : String) (storageFails : Bool) :
    (stopRecordingRoute rec st now created storageFails).2.2.autoSaved =
      ((stopRecordingRoute rec st now created storageFails).2.2.success &&
        !rec.events.isEmpty)
    ∧ (stopRecordingRoute rec st now created storageFails).2.2.success =
        rec.recording
    ∧ (stopRecordingRoute rec st now created storageFails).2.2.events =
        (if rec.recording then rec.events else [])
    ∧ (stopRecordingRoute rec st now created true).2.2 =
        (stopRecordingRoute rec st now created false).2.2 := by
  cases h : rec.recording <;>
    simp [stopRecordingRoute, stopRecording, h]

lemma shouldRecordMove_eq_strict : shouldRecordMove = claimMoveCondStrict := rfl

lemma movePair_append_last {l : List Event} {e : Event}
    (hc : List.Chain' movePair l)
    (hlast : ∀ x, l.getLast? = some x → movePair x e) :
    List.Chain' movePair (l ++ [e]) := by
  rw [List.chain'_append]
  refine ⟨hc, List.chain'_singleton e, ?_⟩
  intro x hx y hy
  simp only [List.head?_cons, Option.mem_def, Option.some.injEq] at hy
  subst hy
  exact hlast x hx

lemma chain_handleNotification (s : RecorderState) (hn : Notification)
    (hc : List.Chain' movePair s.events) :
    List.Chain' movePair (handleNotification s hn).events := by
  cases hn with
  | move t x y =>
    simp only [handleNotification, onMouseMove]
    by_cases hr : s.recording
    · simp only [hr, if_true]
      by_cases hm : shouldRecordMove s.events t
      · simp only [hm, if_true]
        refine movePair_append_last hc ?_
        intro a ha hma hmb
        simp only [shouldRecordMove, ha] at hm
        rcases Bool.or_eq_true _ _ |>.mp hm with h | h
        · rw [hma] at h
          simp at h
        · have := of_decide_eq_true h
          linarith
      · simp [hm, hc]
    · simp [hr, hc]
  | click t x y b p =>
    simp only [handleNotification, onMouseClick]
    by_cases hr : s.recording
    · simp only [hr, if_true]
      refine movePair_append_last hc ?_
      intro a _ _ hmb
      simp [isMouseMove] at hmb
    · simp [hr, hc]
  | scroll t x y dx dy =>
    simp only [handleNotification, onMouseScroll]
    by_cases hr : s.recording
    · simp only [hr, if_true]
      refine movePair_append_last hc ?_
      intro a _ _ hmb
      simp [isMouseMove] at hmb
    · simp [hr, hc]
  | keyDown t k =>
    simp only [handleNotification, onKeyPress]
    by_cases hr : s.recording
    · simp only [hr, if_true]
      refine movePair_append_last hc ?_
      intro a _ _ hmb
      simp [isMouseMove] at hmb
    · simp [hr, hc]
  | keyUp t k =>
    simp only [handleNotification, onKeyRelease]
    by_cases hr : s.recording
    · simp only [hr, if_true]
      refine movePair_append_last hc ?_
      intro a _ _ hmb
      simp [isMouseMove] at hmb
    · simp [hr, hc]

lemma chain_recordRun (inputs : List Notification) :
    List.Chain' movePair (recordRun inputs).events := by
  suffices h : ∀ s : RecorderState, List.Chain' movePair s.events →
      List.Chain' movePair (inputs.foldl handleNotification s).events by
    exact h startState (by simp [startState])
  induction inputs with
  | nil => intro s hs; simpa using hs
  | cons a rest ih =>
    intro s hs
    simpa using ih (handleNotification s a) (chain_handleNotification s a hs)

lemma chain_run_gap : ∀ (mid : List Event) (a b : Event) (l2 : List Event),
    List.Chain' movePair (a :: (mid ++ b :: l2)) →
    isMouseMove a.data = true → isMouseMove b.data = true →
    (∀ e ∈ mid, isMouseMove e.data = true) →
    a.timestamp + 1/10 < b.timestamp := by
  intro mid
  induction mid with
  | nil =>
    intro a b l2 hc hma hmb _
    simp only [List.nil_append] at hc
    exact (List.chain'_cons.mp hc).1 hma hmb
  | cons m mid' ih =>
    intro a b l2 hc hma hmb hmid
    simp only [List.cons_append] at hc
    have h1 := (List.chain'_cons.mp hc).1
    have h2 := (List.chain'_cons.mp hc).2
    have hmm : isMouseMove m.data = true := hmid m (by simp)
    have hgap1 : a.timestamp + 1/10 < m.timestamp := h1 hma hmm
    have hgap2 : m.timestamp + 1/10 < b.timestamp :=
      ih m b l2 h2 hmm hmb (fun e he => hmid e (by simp [he]))
    linarith

lemma spaced_of_chain {buf : List Event}
    (hc : List.Chain' movePair buf) : movesSpaced buf := by
  intro l1 a mid b l2 hbuf hma hmb hmid
  subst hbuf
  have hc' : List.Chain' movePair (l1 ++ (a :: (mid ++ b :: l2))) := by
    simpa [List.cons_append, List.append_assoc] using hc
  have h2 : List.Chain' movePair (a :: (mid ++ b :: l2)) := by
    rw [List.chain'_append] at hc'
    exact hc'.2.1
  exact le_of_lt (chain_run_gap mid a b l2 h2 hma hmb hmid)

/-- C3 counterexample: with the buffer holding a single stored move at
offset 0 and a new move arriving at offset exactly 0.1, the claimed
condition (elapsed "at least 0.1 s", i.e. `≥`) holds, yet
`_on_mouse_move` does not append — the source requires strictly more
than 0.1 s. -/
theorem move_throttle_boundary_counterexample :
    claimMoveCondGeq [⟨0, .mouseMove 0 0⟩] (1/10) = true
    ∧ (onMouseMove ⟨[⟨0, .mouseMove 0 0⟩], true⟩ (1/10) 5 5).events =
        [⟨0, .mouseMove 0 0⟩] := by
  constructor
  · simp [claimMoveCondGeq, isMouseMove]
  · simp [onMouseMove, shouldRecordMove, isMouseMove]

/-- C3 (amended): during capture a move notification is appended iff the
buffer is empty, or the last stored event is not a move, or strictly
more than 0.1 s has elapsed since the last stored move's offset; a move
arriving right after a non-move event is stored unconditionally; and in
any buffer produced by a capture run, stored moves separated only by
stored moves are at least 0.1 s apart. -/
theorem move_throttle (s : RecorderState) (t x y : Rat) :
    (s.recording = true →
      (onMouseMove s t x y).events =
        (if claimMoveCondStrict s.events t then
          s.events ++ [⟨t, .mouseMove x y⟩]
         else s.events))
    ∧ (∀ e, s.recording = true → s.events.getLast? = some e →
        isMouseMove e.data = false →
        (onMouseMove s t x y).events = s.events ++ [⟨t, .mouseMove x y⟩])
    ∧ (∀ inputs : List Notification, movesSpaced (recordRun inputs).events) := by
  refine ⟨?_, ?_, ?_⟩
  · intro hr
    by_cases h : claimMoveCondStrict s.events t = true <;>
      simp [onMouseMove, hr, shouldRecordMove_eq_strict, h]
  · intro e hr hlast hnm
    have hcond : shouldRecordMove s.events t = true := by
      simp [shouldRecordMove, hlast, hnm]
    simp [onMouseMove, hr, hcond]
  · intro inputs
    exact spaced_of_chain (chain_recordRun inputs)

/-- C3 witness: a move 0.2 s after a stored move is appended. -/
theorem move_throttle_witness :
    (onMouseMove ⟨[⟨0, .mouseMove 0 0⟩], true⟩ (1/5) 7 7).events =
      [⟨0, .mouseMove 0 0⟩, ⟨1/5, .mouseMove 7 7⟩] := by
  rw [(move_throttle ⟨[⟨0, .mouseMove 0 0⟩], true⟩ (1/5) 7 7).1 rfl]
  norm_num [claimMoveCondStrict, isMouseMove]

lemma eventFromJson_eventToJson (e : Event) :
    eventFromJson (eventToJson e) = some e := by
  rcases e with ⟨t, d⟩
  cases d <;> rfl

lemma decodeEvents_map (events : List Event) :
    decodeEvents (events.map eventToJson) = some events := by
  induction events with
  | nil => rfl
  | cons e rest ih =>
    simp only [List.map_cons, decodeEvents, eventFromJson_eventToJson, ih]

/-- C4: saving a sequence and loading it back by the same name returns
the JSON record written for it, whose `events` field is exactly the
serialized event list; decoding that field recovers the saved events
field for field. -/
theorem save_load_roundtrip (st : Store) (name : String)
    (events : List Event) (description created : String)
    (hne : events ≠ []) :
    loadMacroFromStore (saveMacroToStore st name events description created).1
        name = some (macroFileJson name description created events)
    ∧ eventsField (macroFileJson name description created events) =
        some (events.map eventToJson)
    ∧ decodeEvents (events.map eventToJson) = some events := by
  refine ⟨?_, rfl, decodeEvents_map events⟩
  simp [loadMacroFromStore, saveMacroToStore, storeGet, storePut, jget]

/-- C4 witness: a one-event sequence round-trips through the store. -/
theorem save_load_roundtrip_witness :
    loadMacroFromStore
        (saveMacroToStore ([] : Store) "demo" [⟨0, .keyPress "a"⟩] "d" "c").1
        "demo" = some (macroFileJson "demo" "d" "c" [⟨0, .keyPress "a"⟩])
    ∧ decodeEvents ([⟨0, .keyPress "a"⟩].map eventToJson) =
        some [⟨0, .keyPress "a"⟩] :=
  have h := save_load_roundtrip ([] : Store) "demo" [⟨0, .keyPress "a"⟩]
    "d" "c" (by simp)
  ⟨h.1, h.2.2⟩

/-- C6: auto-save of an empty event list is a no-op returning the empty
string; a non-empty list is saved through `save_macro` under the name
`macro_<YYYYMMDD_HHMMSS>` with a description carrying the press-click
count, the key-press count, and the duration `last.offset - first.offset`
(0 when there is a single event). -/
theorem auto_save_behavior (st : Store) (now : PyDateTime)
    (created : String) (e0 e1 : Event) (rest : List Event) :
    autoSaveMacroToStore st now created [] = (st, "")
    ∧ autoSaveMacroToStore st now created [e0] =
        saveMacroToStore st ("macro_" ++ strftimeCompact now) [e0]
          ("Auto-saved macro: " ++
            toString ([e0].filter fun e => isPressClick e).length ++
            " clicks, " ++
            toString ([e0].filter fun e => isKeyPressEv e).length ++
            " key presses, " ++ fmt1 0 ++ "s duration")
          created
    ∧ autoSaveMacroToStore st now created (e0 :: e1 :: rest) =
        saveMacroToStore st ("macro_" ++ strftimeCompact now)
          (e0 :: e1 :: rest)
          ("Auto-saved macro: " ++
            toString ((e0 :: e1 :: rest).filter fun e =>
              isPressClick e).length ++
            " clicks, " ++
            toString ((e0 :: e1 :: rest).filter fun e =>
              isKeyPressEv e).length ++
            " key presses, " ++
            fmt1 (((e0 :: e1 :: rest).getLast
                (List.cons_ne_nil e0 (e1 :: rest))).timestamp -
              e0.timestamp) ++
            "s duration")
          created := by
  refine ⟨rfl, ?_, ?_⟩
  · simp [autoSaveMacroToStore, List.countP_eq_length_filter]
  · have hlt : 1 < (e0 :: e1 :: rest).length := by
      simp [List.length_cons]
    simp [autoSaveMacroToStore, List.countP_eq_length_filter, hlt]

lemma beginsWith_refl_append (p l : List Char) :
    beginsWith p (p ++ l) = true := by
  induction p with
  | nil => rfl
  | cons c cs ih => simp [beginsWith, ih]

lemma splitDot_no_dot : ∀ {cs : List Char}, '.' ∉ cs → splitDot cs = [cs] := by
  intro cs h
  induction cs with
  | nil => rfl
  | cons c rest ih =>
    have hc : c ≠ '.' := fun hcc => h (by simp [hcc])
    have hrest : '.' ∉ rest := fun hr => h (by simp [hr])
    simp [splitDot, hc, ih hrest]

lemma keyNames_wellformed :
    ∀ n ∈ pynputKeyNames, '.' ∉ n.data ∧ n.data ≠ [] := by
  decide

/-- C8: every recorded key symbol is either the single pressed character
(length-1 string) or the `Key.<name>` identifier of a named key, which
has length greater than 1 and so differs from every single-character
string; `_parse_key` resolves a length-1 symbol as the literal character
and a named-key symbol through the named-key lookup. -/
theorem key_symbol_shape :
    (∀ c : Char, keyCharOf (.keyCode c) = (⟨[c]⟩ : String)
      ∧ (keyCharOf (.keyCode c)).length = 1
      ∧ parseKey (keyCharOf (.keyCode c)) = .literal ⟨[c]⟩)
    ∧ (∀ n : String, n ∈ pynputKeyNames →
        1 < (keyCharOf (.named n)).length
        ∧ (∀ c : Char, keyCharOf (.named n) ≠ (⟨[c]⟩ : String))
        ∧ parseKey (keyCharOf (.named n)) = .keyMember n) := by
  constructor
  · intro c
    exact ⟨rfl, rfl, rfl⟩
  · intro n hmem
    obtain ⟨hdot, hne⟩ := keyNames_wellformed n hmem
    have hdata : ("Key." ++ n).data = 'K' :: 'e' :: 'y' :: '.' :: n.data := by
      rw [String.data_append]
      rfl
    have hnlen : 0 < n.length := by
      show 0 < n.data.length
      cases hd : n.data with
      | nil => exact absurd hd hne
      | cons a l => simp
    have hlen : ("Key." ++ n).length = 4 + n.length := by
      rw [String.length_append]
      rfl
    have hkey : keyCharOf (.named n) = "Key." ++ n := rfl
    refine ⟨?_, ?_, ?_⟩
    · rw [hkey, hlen]
      omega
    · intro c hc
      rw [hkey] at hc
      have hlc := congrArg String.length hc
      rw [hlen] at hlc
      have h1 : (⟨[c]⟩ : String).length = 1 := rfl
      rw [h1] at hlc
      omega
    · rw [hkey]
      have hne1 : ¬ ("Key." ++ n).length = 1 := by
        rw [hlen]; omega
      have hbegins : beginsWith "Key.".data ("Key." ++ n).data = true := by
        rw [String.data_append]
        exact beginsWith_refl_append "Key.".data n.data
      have hsplit : splitDot (("Key." ++ n).data) =
          [['K', 'e', 'y'], n.data] := by
        rw [hdata]
        show ['K', 'e', 'y'] :: splitDot n.data = _
        rw [splitDot_no_dot hdot]
      rw [parseKey, if_neg hne1, if_pos hbegins, hsplit]
      show (if n ∈ pynputKeyNames then ParsedKey.keyMember n
            else ParsedKey.literal ("Key." ++ n)) = ParsedKey.keyMember n
      rw [if_pos hmem]

/-- C8 witness: the character key `a` and the named key `esc`. -/
theorem key_symbol_shape_witness :
    parseKey (keyCharOf (.keyCode 'a')) = .literal ⟨['a']⟩
    ∧ 1 < (keyCharOf (.named "esc")).length
    ∧ parseKey (keyCharOf (.named "esc")) = .keyMember "esc" :=
  ⟨(key_symbol_shape.1 'a').2.2,
   (key_symbol_shape.2 "esc" (by decide)).1,
   (key_symbol_shape.2 "esc" (by decide)).2.2⟩

/-- C9 counterexample: a save request with a valid name but an empty
event list is accepted as a successful save — the route reports
`success` with the file path and persists a sequence whose `events`
list is empty, instead of surfacing a failure. -/
theorem save_route_empty_events_counterexample :
    (saveMacroRoute ([] : Store) "c" "a" "" []).2 =
      ⟨true, none, some "macros/a.json"⟩
    ∧ loadMacroFromStore (saveMacroRoute ([] : Store) "c" "a" "" []).1 "a" =
        some (macroFileJson "a" "" "c" []) := by
  exact ⟨rfl, rfl⟩

/-- C9 (amended): the `/save_macro` route rejects exactly the requests
whose name is blank after stripping, answering a structured failure and
leaving the store untouched; any other request — including one with an
empty event list — is persisted and answered with success and the file
path. -/
theorem save_route_validation (st : Store) (created name description : String)
    (events : List Event) :
    (pyStrip name = "" →
      saveMacroRoute st created name description events =
        (st, ⟨false, some "Name is required", none⟩))
    ∧ (pyStrip name ≠ "" →
        saveMacroRoute st created name description events =
          ((saveMacroToStore st (pyStrip name) events (pyStrip description)
              created).1,
           ⟨true, none, some ("macros/" ++ pyStrip name ++ ".json")⟩)) := by
  constructor
  · intro h
    simp [saveMacroRoute, h]
  · intro h
    simp [saveMacroRoute, h, saveMacroToStore]

/-- C9 witness: a request with name `demo` and no events succeeds. -/
theorem save_route_validation_witness :
    (saveMacroRoute ([] : Store) "c" "demo" "" []).2 =
      ⟨true, none, some "macros/demo.json"⟩ := by
  rw [(save_route_validation ([] : Store) "c" "demo" "" []).2 (by decide)]
  rfl

lemma playInner_errored_eq_false {speed : Rat} (hs : speed ≠ 0)
    (c : Option Nat) :
    ∀ (es : List Event) (last : Rat) (n : Nat),
      (playInner speed c es last n).errored = false := by
  intro es
  induction es with
  | nil => intro last n; rfl
  | cons e rest ih =>
    intro last n
    by_cases hp : isPlaying c n = true
    · simp [playInner, hp, hs, ih]
    · simp [playInner, hp]

lemma playInner_none_acts {speed : Rat} (hs : speed ≠ 0) :
    ∀ (es : List Event) (last : Rat) (n : Nat),
      (playInner speed none es last n).acts = specPassGo speed last es := by
  intro es
  induction es with
  | nil => intro last n; rfl
  | cons e rest ih =>
    intro last n
    simp [playInner, isPlaying, hs, specPassGo, ih]

lemma playInner_none_counter {speed : Rat} (hs : speed ≠ 0) :
    ∀ (es : List Event) (last : Rat) (n : Nat),
      (playInner speed none es last n).counter = n + es.length := by
  intro es
  induction es with
  | nil => intro last n; simp [playInner]
  | cons e rest ih =>
    intro last n
    simp [playInner, isPlaying, hs, ih]
    omega

lemma dispatches_specPassGo (speed : Rat) :
    ∀ (es : List Event) (last : Rat),
      dispatches (specPassGo speed last es) = es := by
  intro es
  induction es with
  | nil => intro last; rfl
  | cons e rest ih =>
    intro last
    by_cases h0 : 0 < (e.timestamp - last) / speed <;>
      simp [specPassGo, h0, dispatches, List.filterMap_append,
        List.filterMap_cons] <;>
      simpa [dispatches] using ih e.timestamp

lemma playOuter_none_acts {speed : Rat} (hs : speed ≠ 0)
    (events : List Event) :
    ∀ (r n : Nat),
      (playOuter speed none events r n).acts =
        (List.replicate r (specPass speed events)).flatten := by
  intro r
  induction r with
  | zero => intro n; rfl
  | succ r ih =>
    intro n
    simp [playOuter, isPlaying, playInner_errored_eq_false hs,
      playInner_none_acts hs, specPass, List.replicate_succ, ih]

lemma playInner_dead {speed : Rat} {k n : Nat} (hkn : k ≤ n)
    (es : List Event) (last : Rat) :
    (playInner speed (some k) es last n).acts = []
    ∧ k ≤ (playInner speed (some k) es last n).counter
    ∧ (playInner speed (some k) es last n).errored = false := by
  cases es with
  | nil => exact ⟨rfl, hkn, rfl⟩
  | cons e rest =>
    have hp : isPlaying (some k) n = false := by
      simp [isPlaying]; omega
    refine ⟨?_, ?_, ?_⟩ <;> simp [playInner, hp] <;> omega

lemma playInner_agree {speed : Rat} (hs : speed ≠ 0) {k : Nat} :
    ∀ (es : List Event) (last : Rat) (n : Nat), n + es.length ≤ k →
      playInner speed (some k) es last n = playInner speed none es last n := by
  intro es
  induction es with
  | nil => intro last n _; rfl
  | cons e rest ih =>
    intro last n hn
    have hlt : n < k := by simp at hn; omega
    have hrec := ih e.timestamp (n + 1) (by simp at hn ⊢; omega)
    simp [playInner, isPlaying, hlt, hs, hrec]

lemma playInner_rel {speed : Rat} (hs : speed ≠ 0) {k : Nat} :
    ∀ (es : List Event) (last : Rat) (n : Nat),
      (∃ t, (playInner speed (some k) es last n).acts ++ t =
        (playInner speed none es last n).acts)
      ∧ (playInner speed (some k) es last n = playInner speed none es last n
         ∨ k ≤ (playInner speed (some k) es last n).counter) := by
  intro es
  induction es with
  | nil => intro last n; exact ⟨⟨[], by simp [playInner]⟩, Or.inl rfl⟩
  | cons e rest ih =>
    intro last n
    by_cases hnk : n < k
    · obtain ⟨⟨t, ht⟩, hdisj⟩ := ih e.timestamp (n + 1)
      constructor
      · refine ⟨t, ?_⟩
        simp [playInner, isPlaying, hnk, hs, List.append_assoc, ht]
      · rcases hdisj with heq | hk
        · exact Or.inl (by simp [playInner, isPlaying, hnk, hs, heq])
        · refine Or.inr ?_
          have hp : isPlaying (some k) n = true := by
            simp [isPlaying, hnk]
          simp only [playInner, hp, if_true, if_neg hs]
          exact hk
    · have hkn : k ≤ n := by omega
      have hp : isPlaying (some k) n = false := by
        simp [isPlaying]; omega
      constructor
      · exact ⟨(playInner speed none (e :: rest) last n).acts,
          by simp [playInner, hp]⟩
      · refine Or.inr ?_
        simp [playInner, hp]
        omega

lemma playOuter_dead {speed : Rat} {k n : Nat} (hkn : k ≤ n)
    (events : List Event) (r : Nat) :
    (playOuter speed (some k) events r n).acts = [] := by
  cases r with
  | zero => rfl
  | succ r =>
    have hp : isPlaying (some k) n = false := by
      simp [isPlaying]; omega
    simp [playOuter, hp]

lemma playOuter_pre {speed : Rat} (hs : speed ≠ 0) {k : Nat}
    (events : List Event) :
    ∀ (r n : Nat),
      ∃ t, (playOuter speed (some k) events r n).acts ++ t =
        (playOuter speed none events r n).acts := by
  intro r
  induction r with
  | zero => intro n; exact ⟨[], by simp [playOuter]⟩
  | succ r ih =>
    intro n
    by_cases hnk : n < k
    · obtain ⟨⟨t1, ht1⟩, hdisj⟩ := playInner_rel (k := k) hs events 0 (n + 1)
      have herrS := playInner_errored_eq_false hs (some k) events 0 (n + 1)
      have herrN := playInner_errored_eq_false hs none events 0 (n + 1)
      rcases hdisj with heq | hk
      · obtain ⟨t2, ht2⟩ :=
          ih (playInner speed none events 0 (n + 1)).counter
        refine ⟨t2, ?_⟩
        simp [playOuter, isPlaying, hnk, herrS, herrN, heq,
          List.append_assoc, ht2]
      · refine ⟨t1 ++ (playOuter speed none events r
          ((playInner speed none events 0 (n + 1)).counter)).acts, ?_⟩
        have hdead := @playOuter_dead speed k
          ((playInner speed (some k) events 0 (n + 1)).counter) hk events r
        simp [playOuter, isPlaying, hnk, herrS, herrN, hdead]
        rw [← List.append_assoc, ht1]
    · have hp : isPlaying (some k) n = false := by
        simp [isPlaying]; omega
      exact ⟨(playOuter speed none events (r + 1) n).acts,
        by simp [playOuter, hp]⟩

lemma dispatches_flatten (l : List (List Action)) :
    dispatches l.flatten = (l.map dispatches).flatten := by
  induction l with
  | nil => rfl
  | cons a rest ih =>
    simp [dispatches, List.filterMap_append] at ih ⊢
    exact ih

/-- C1: with speed > 0, the finite-repeat worker started by `play_macro`
produces, when never cancelled, exactly `rep` passes over the events:
each pass sleeps `(event.offset - previous.offset) / speed` before each
dispatch (previous offset 0 at the start of a pass, sleep skipped when
not positive) and the dispatched events of the spec trace are the events
in order, `rep` times; for every cancellation point the produced trace
is a prefix of the uncancelled one (the flag is checked before every
event); and the worker always leaves `self.playing = False`. -/
theorem finite_replay_trace (events : List Event) (speed : Rat) (rep : Nat)
    (hsp : 0 < speed) :
    (playEventsRun events speed rep none).acts =
      specFiniteReplay speed events rep
    ∧ dispatches (specFiniteReplay speed events rep) =
        (List.replicate rep events).flatten
    ∧ (∀ c, (playEventsRun events speed rep c).finalPlaying = false)
    ∧ (∀ k, ∃ t, (playEventsRun events speed rep (some k)).acts ++ t =
        (playEventsRun events speed rep none).acts) := by
  have hs : speed ≠ 0 := ne_of_gt hsp
  refine ⟨?_, ?_, fun c => rfl, fun k => playOuter_pre hs events rep 0⟩
  · exact playOuter_none_acts hs events rep 0
  · rw [specFiniteReplay, dispatches_flatten, List.map_replicate,
      specPass, dispatches_specPassGo]

/-- C1 witness: two events at offsets 0 and 1 replayed twice at speed 2:
the trace is two passes, each dispatching both events with a 0.5 s sleep
before the second. -/
theorem finite_replay_trace_witness :
    (playEventsRun [⟨0, .mouseMove 1 1⟩, ⟨1, .mouseMove 2 2⟩] 2 2 none).acts =
      specFiniteReplay 2 [⟨0, .mouseMove 1 1⟩, ⟨1, .mouseMove 2 2⟩] 2
    ∧ dispatches (specFiniteReplay 2 [⟨0, .mouseMove 1 1⟩, ⟨1, .mouseMove 2 2⟩] 2) =
        (List.replicate 2 [⟨0, .mouseMove 1 1⟩, ⟨1, .mouseMove 2 2⟩]).flatten := by
  have h := finite_replay_trace [⟨0, .mouseMove 1 1⟩, ⟨1, .mouseMove 2 2⟩] 2 2
    (by norm_num)
  exact ⟨h.1, h.2.1⟩

lemma playInner_neg_skip {speed : Rat} (hneg : speed < 0) :
    ∀ (es : List Event) (last : Rat) (n : Nat), nondecFrom last es = true →
      (playInner speed none es last n).acts = es.map Action.dispatch := by
  intro es
  induction es with
  | nil => intro last n _; rfl
  | cons e rest ih =>
    intro last n hnd
    have hs0 : ¬ (speed = 0) := ne_of_lt hneg
    simp only [nondecFrom, Bool.and_eq_true, decide_eq_true_eq] at hnd
    have hwle : (e.timestamp - last) / speed ≤ 0 :=
      div_nonpos_iff.mpr (Or.inl ⟨by linarith [hnd.1], le_of_lt hneg⟩)
    have hnot : ¬ (0 < (e.timestamp - last) / speed) := not_lt.mpr hwle
    simp [playInner, isPlaying, hs0, hnot, ih e.timestamp (n + 1) hnd.2]

lemma playOuter_neg {speed : Rat} (hneg : speed < 0) (events : List Event)
    (hnd : nondecFrom 0 events = true) :
    ∀ (r n : Nat), (playOuter speed none events r n).acts =
      (List.replicate r (events.map Action.dispatch)).flatten := by
  have hs0 : speed ≠ 0 := ne_of_lt hneg
  intro r
  induction r with
  | zero => intro n; rfl
  | succ r ih =>
    intro n
    simp [playOuter, isPlaying, playInner_errored_eq_false hs0,
      playInner_neg_skip hneg events 0 _ hnd, List.replicate_succ, ih]

/-- C7 counterexample: a play request with speed 0 from an idle player
is neither rejected nor clamped — `play_macro` answers `true` and spawns
the worker with speed 0 unchanged, and that worker does evaluate the
wait division by the non-positive speed: its run ends in the caught
`ZeroDivisionError`. -/
theorem speed_validation_counterexample :
    (playMacroReq ⟨false, false, false⟩ [⟨1, .mouseMove 0 0⟩] 0 1).1 = true
    ∧ (playMacroReq ⟨false, false, false⟩ [⟨1, .mouseMove 0 0⟩] 0 1).2.2 =
        some (.finiteRun [⟨1, .mouseMove 0 0⟩] 0 1)
    ∧ (playEventsRun [⟨1, .mouseMove 0 0⟩] 0 1 none).errored = true := by
  refine ⟨rfl, rfl, ?_⟩
  simp [playEventsRun, playOuter, playInner, isPlaying]

/-- C7 (amended): the implementation neither rejects nor clamps a
non-positive speed: from an idle state `play_macro` accepts the request
and hands the worker the speed unchanged.  With speed = 0 and a
non-empty event list the worker's first wait computation divides by
zero; the raised error is caught, no event is dispatched, and the
session is marked inactive.  With speed < 0 (and the capture invariant
of non-decreasing, non-negative offsets) every wait is non-positive, so
all sleeps are skipped and the events replay back-to-back. -/
theorem nonpositive_speed_behavior (s : PlayerState) (events : List Event)
    (speed : Rat) (rep : Nat) (hidle : s.playing = false) (hsp : speed ≤ 0) :
    (playMacroReq s events speed rep).1 = true
    ∧ (playMacroReq s events speed rep).2.2 =
        some (.finiteRun events speed rep)
    ∧ (speed = 0 → events ≠ [] → 0 < rep →
        (playEventsRun events speed rep none).errored = true
        ∧ (playEventsRun events speed rep none).acts = [])
    ∧ (speed < 0 → nondecFrom 0 events = true →
        (playEventsRun events speed rep none).acts =
          (List.replicate rep (events.map Action.dispatch)).flatten)
    ∧ (∀ c, (playEventsRun events speed rep c).finalPlaying = false) := by
  refine ⟨?_, ?_, ?_, ?_, fun c => rfl⟩
  · simp [playMacroReq, hidle]
  · simp [playMacroReq, hidle]
  · rintro rfl hne hrep
    cases events with
    | nil => exact absurd rfl hne
    | cons e es =>
      cases rep with
      | zero => omega
      | succ r =>
        constructor <;> simp [playEventsRun, playOuter, playInner, isPlaying]
  · intro hneg hnd
    simp [playEventsRun, playOuter_neg hneg events hnd]

/-- C7 witness: a negative-speed request from idle is accepted and the
worker replays the event with no sleep. -/
theorem nonpositive_speed_behavior_witness :
    (playMacroReq ⟨false, false, false⟩ [⟨1, .mouseMove 0 0⟩] (-1) 1).1 = true
    ∧ (playEventsRun [⟨1, .mouseMove 0 0⟩] (-1) 1 none).acts =
        (List.replicate 1 ([⟨1, .mouseMove 0 0⟩].map Action.dispatch)).flatten := by
  have h := nonpositive_speed_behavior ⟨false, false, false⟩
    [⟨1, .mouseMove 0 0⟩] (-1) 1 rfl (by norm_num)
  exact ⟨h.1, h.2.2.2.1 (by norm_num) (by norm_num [nondecFrom])⟩

end MacroApp
